import Mathlib

/-!
Verification of the smart context-selection / retrieval pipeline of the
aiNoteProject backend (`src/backend/app`): token estimation, FULL vs RAG
mode selection, cache normalization, backend answer generation, and the
daily query quota.

Texts are modeled as `List Char`.  Database chunk rows
(`DocumentEmbedding`) are modeled as a list of `Chunk` records per
document; the SQL `ORDER BY page_number` is modeled by an insertion sort
on the `page` field.  The pgvector `cosine_distance` ordering is
abstracted as a caller-supplied distance function (the spec declares
vector-index internals out of scope).  Outcomes of external network calls
(embedding provider, LLM backends) are passed in as explicit
`Except`/outcome values.
-/

namespace AiNote

/-- One `DocumentEmbedding` row: `page_number` (chunk ordinal) and `content`
(`app/models/document.py`, `DocumentEmbedding`). The `embedding` vector
column is not carried; nearest-neighbor ordering is abstracted separately. -/
structure Chunk where
  page : Nat
  content : List Char
deriving DecidableEq

/-- `TOKEN_THRESHOLDS.get(model, 25000)` from `chat.py`:
deepseek 25000, gemini 100000, default 25000. -/
def tokenThreshold (model : String) : Nat :=
  if model = "deepseek" then 25000
  else if model = "gemini" then 100000
  else 25000

/-- Total character count of a document's chunk contents:
`db.query(func.sum(func.length(DocumentEmbedding.content))) ... or 0`. -/
def docChars (doc : List Chunk) : Nat :=
  (doc.map (fun c => c.content.length)).sum

/-- `get_document_token_count` (`chat.py` lines 71-79): total characters
of all chunk contents, integer-divided by 4. -/
def getDocumentTokenCount (doc : List Chunk) : Nat :=
  docChars doc / 4

/-- The multi-document token estimate of `get_smart_context_multi`
(`chat.py` lines 147-155): per document, `chars // 4`, summed. -/
def multiTokenEstimate (docs : List (List Chunk)) : Nat :=
  (docs.map (fun d => docChars d / 4)).sum

/-- Modelled from the spec: the "single-pool" estimate that the spec claims
is equivalent to `multiTokenEstimate` — pool all documents' chunks and apply
the single-document estimator (sum all character counts, then divide by 4). -/
def pooledTokenEstimate (docs : List (List Chunk)) : Nat :=
  getDocumentTokenCount docs.flatten

/-- Multi-document threshold `int(TOKEN_THRESHOLDS.get(model, 25000) * 1.5)`
(`chat.py` line 158).  For the table values 25000 and 100000 the float
product is exact, so truncation equals `t * 3 / 2` in natural numbers. -/
def multiThreshold (model : String) : Nat :=
  tokenThreshold model * 3 / 2

/-- Insert a chunk into a page-sorted list, keeping the sort. -/
def insertByPage (c : Chunk) : List Chunk → List Chunk
  | [] => [c]
  | d :: rest => if c.page ≤ d.page then c :: d :: rest else d :: insertByPage c rest

/-- `ORDER BY DocumentEmbedding.page_number` (ascending): insertion sort
on the `page` field. -/
def sortByPage : List Chunk → List Chunk
  | [] => []
  | c :: rest => insertByPage c (sortByPage rest)

/-- Sort chunks by a caller-supplied distance value; models
`ORDER BY embedding.cosine_distance(query_embedding)` with the cosine
distance abstracted as `dist`. -/
def insertByDist (dist : Chunk → Nat) (c : Chunk) : List Chunk → List Chunk
  | [] => [c]
  | d :: rest => if dist c ≤ dist d then c :: d :: rest else d :: insertByDist dist c rest

/-- Nearest-neighbor ordering of a document's chunks under `dist`. -/
def sortByDist (dist : Chunk → Nat) : List Chunk → List Chunk
  | [] => []
  | c :: rest => insertByDist dist c (sortByDist dist rest)

/-- Python `sep.join(parts)`. -/
def joinWithSep (sep : List Char) : List (List Char) → List Char
  | [] => []
  | [l] => l
  | l :: ls => l ++ sep ++ joinWithSep sep ls

/-- `"\n\n".join([c.content for c in chunks if c.content])`: drop empty
contents, join the rest with a blank line. -/
def joinChunks (chunks : List Chunk) : List Char :=
  joinWithSep ['\n', '\n'] ((chunks.map (fun c => c.content)).filter (fun s => s ≠ []))

/-- Context-selection mode returned by `get_smart_context`:
`"full"`, `"rag"` or `"empty"`. -/
inductive Mode where
  | full
  | rag
  | empty
deriving DecidableEq

/-- `GeminiService.generate_embedding` retry loop
(`gemini_service.py` lines 17-56): the outcomes of the (up to
`retry_count`) attempts are supplied as a list; the first success is
returned, and when every attempt fails the last failure is re-raised. -/
def generateEmbedding : List (Except Unit (List Int)) → Except Unit (List Int)
  | [] => Except.error ()
  | [a] => a
  | a :: b :: rest =>
    match a with
    | Except.ok v => Except.ok v
    | Except.error _ => generateEmbedding (b :: rest)

/-- `get_smart_context` (`chat.py` lines 82-131).  `embResult` is the
outcome of `await gemini_service.generate_query_embedding(question)`; a
raised exception (`Except.error`) propagates out of the function.  The
embedding values only ever flow through Python truthiness tests
(`query_embedding and any(query_embedding)`), so they are carried as
integers; `dist` abstracts the cosine distance to the query embedding. -/
def getSmartContext (doc : List Chunk) (model : String)
    (embResult : Except Unit (List Int)) (dist : Chunk → Nat) :
    Except Unit (List Char × Mode) :=
  let estimatedTokens := getDocumentTokenCount doc
  let threshold := tokenThreshold model
  if estimatedTokens < threshold then
    let allChunks := sortByPage doc
    if allChunks = [] then Except.ok ([], Mode.empty)
    else Except.ok (joinChunks allChunks, Mode.full)
  else
    match embResult with
    | Except.error e => Except.error e
    | Except.ok qe =>
      if qe ≠ [] ∧ qe.any (fun x => x ≠ 0) then
        Except.ok (joinChunks ((sortByDist dist doc).take 5), Mode.rag)
      else
        Except.ok (joinChunks ((sortByPage doc).take 5), Mode.rag)

/-- `get_smart_context_multi` (`chat.py` lines 134-193): per-document
estimates are summed, compared against the 1.5x threshold; FULL mode joins
every chunk of every document, RAG mode takes 3 chunks per document
(nearest-neighbor, or first-3-by-page when the query embedding is falsy);
an exception from the embedding call propagates.  There is no EMPTY mode. -/
def getSmartContextMulti (docs : List (List Chunk)) (model : String)
    (embResult : Except Unit (List Int)) (dist : Chunk → Nat) :
    Except Unit (List (List Char) × Mode) :=
  let totalTokens := multiTokenEstimate docs
  let threshold := multiThreshold model
  if totalTokens < threshold then
    Except.ok (docs.map (fun d => joinChunks (sortByPage d)), Mode.full)
  else
    match embResult with
    | Except.error e => Except.error e
    | Except.ok qe =>
      if qe ≠ [] ∧ qe.any (fun x => x ≠ 0) then
        Except.ok (docs.map (fun d => joinChunks ((sortByDist dist d).take 3)), Mode.rag)
      else
        Except.ok (docs.map (fun d => joinChunks ((sortByPage d).take 3)), Mode.rag)

/-!
Cache normalization (`app/services/deepseek_service.py`,
`normalize_text_for_cache`, lines 60-88).
-/

/-- The ASCII portion of Python `str` whitespace (as used by `str.rstrip`
and `str.strip` with no argument): space, tab, newline, carriage return,
vertical tab, form feed.  Non-ASCII Unicode space classes are outside the
character domain of this development. -/
def pyIsSpace (c : Char) : Bool :=
  c = ' ' || c = '\t' || c = '\n' || c = '\r' || c = '\x0b' || c = '\x0c'

/-- `unicodedata.normalize('NFC', text)`: modeled as the identity.  The
development works over texts that are NFC-fixed (every ASCII text is);
full Unicode composition tables are outside the scope of this embedding. -/
def nfcNormalize (s : List Char) : List Char := s

/-- `re.sub(r' +', ' ', text)`: collapse every maximal run of spaces to a
single space (drop the first of any two adjacent spaces, repeatedly). -/
def collapseSpaces : List Char → List Char
  | [] => []
  | [c] => [c]
  | a :: b :: rest =>
    if a = ' ' ∧ b = ' ' then collapseSpaces (b :: rest)
    else a :: collapseSpaces (b :: rest)

/-- `re.sub(r'\n{3,}', '\n\n', text)`: collapse every maximal run of three
or more newlines to exactly two (drop the first of any three adjacent
newlines, repeatedly; runs of one or two newlines are untouched). -/
def collapseNewlines : List Char → List Char
  | [] => []
  | [c] => [c]
  | [c, d] => [c, d]
  | a :: b :: c :: rest =>
    if a = '\n' ∧ b = '\n' ∧ c = '\n' then collapseNewlines (b :: c :: rest)
    else a :: collapseNewlines (b :: c :: rest)

/-- `text.split('\n')`: split into lines; the empty text yields one empty
line, like Python. -/
def splitNL : List Char → List (List Char)
  | [] => [[]]
  | c :: rest =>
    if c = '\n' then [] :: splitNL rest
    else
      match splitNL rest with
      | [] => [[c]]
      | l :: ls => (c :: l) :: ls

/-- `'\n'.join(lines)`. -/
def joinNL (lines : List (List Char)) : List Char :=
  joinWithSep ['\n'] lines

/-- `line.rstrip()`: remove trailing whitespace. -/
def rstripLine (l : List Char) : List Char :=
  ((l.reverse.dropWhile pyIsSpace)).reverse

/-- `text.strip()`: remove leading and trailing whitespace. -/
def pyStrip (l : List Char) : List Char :=
  rstripLine (l.dropWhile pyIsSpace)

/-- `normalize_text_for_cache` (`deepseek_service.py` lines 60-88): empty
guard, NFC, collapse space runs, collapse 3+-newline runs, strip each
line's trailing whitespace, strip the whole text. -/
def normalizeTextForCache (s : List Char) : List Char :=
  if s = [] then []
  else
    pyStrip (joinNL (((splitNL (collapseNewlines (collapseSpaces (nfcNormalize s))))).map rstripLine))

/-- Scanner for a run of at least two adjacent spaces. -/
def hasDoubleSpace : List Char → Bool
  | [] => false
  | c :: rest => (decide (c = ' ') && decide (rest.take 1 = [' '])) || hasDoubleSpace rest

/-- Scanner for a run of at least three adjacent newlines. -/
def hasTripleNewline : List Char → Bool
  | [] => false
  | c :: rest => (decide (c = '\n') && decide (rest.take 2 = ['\n', '\n'])) || hasTripleNewline rest

/-- The non-whitespace subsequence of a text. -/
def filterNonWs (l : List Char) : List Char :=
  l.filter (fun c => !(pyIsSpace c))

/-!
Backend answer generation (`app/services/ai_service.py`,
`app/services/gemini_service.py`).
-/

/-- `ModelUnavailableError` (`ai_service.py` lines 15-20): carries the
failing backend's name and a message; a missing message defaults to
`"{model} modeli şu anda kullanılamıyor"`. -/
structure ModelUnavailable where
  model : String
  message : String
deriving DecidableEq

/-- The `ModelUnavailableError` constructor with its default message. -/
def modelUnavailableError (model : String) (msg : Option String) : ModelUnavailable :=
  ⟨model, msg.getD (model ++ " modeli şu anda kullanılamıyor")⟩

/-- Outcome of one underlying `model.generate_content` call inside
`GeminiService`: normal text, an `asyncio.TimeoutError`, or any other
raised exception with its message. -/
inductive GemOutcome where
  | ok (text : String)
  | timeout
  | err (msg : String)
deriving DecidableEq

/-- `GeminiService.generate_answer` / `generate_answer_simple`
(`gemini_service.py` lines 184-260): both catch every exception and return
an error STRING as the answer text — a timeout yields
`"Yanıt oluşturulurken zaman aşımı oldu. Lütfen tekrar deneyin."` and any
other exception yields `"Yanıt oluşturulurken hata: {e}"`; neither method
ever raises. -/
def geminiAnswerText : GemOutcome → String
  | GemOutcome.ok t => t
  | GemOutcome.timeout => "Yanıt oluşturulurken zaman aşımı oldu. Lütfen tekrar deneyin."
  | GemOutcome.err e => "Yanıt oluşturulurken hata: " ++ e

/-- `AIService.generate_answer` (`ai_service.py` lines 35-64).
`dsOutcome` is the outcome of `deepseek.generate_answer` (`Except.error`
when it raises); `gemOutcome` is the outcome of the underlying Gemini
call.  For deepseek, a disabled service or a raising call becomes
`ModelUnavailableError`; for gemini, `gemini_service.generate_answer`
swallows every exception (see `geminiAnswerText`), so the surrounding
try/except in the wrapper never fires and the error text is returned as
the answer. -/
def aiGenerateAnswer (model : String) (dsEnabled : Bool)
    (dsOutcome : Except String String) (gemOutcome : GemOutcome) :
    Except ModelUnavailable String :=
  if model = "deepseek" then
    if ¬ dsEnabled then
      Except.error (modelUnavailableError "DeepSeek" (some "DeepSeek API yapılandırılmamış"))
    else
      match dsOutcome with
      | Except.ok t => Except.ok t
      | Except.error e => Except.error (modelUnavailableError "DeepSeek" (some e))
  else
    Except.ok (geminiAnswerText gemOutcome)

/-- `AIService.generate_answer_multi_doc` (`ai_service.py` lines 96-141):
same structure as `aiGenerateAnswer`; the gemini branch goes through
`generate_answer_simple`, which also swallows exceptions. -/
def aiGenerateAnswerMultiDoc (model : String) (dsEnabled : Bool)
    (dsOutcome : Except String String) (gemOutcome : GemOutcome) :
    Except ModelUnavailable String :=
  if model = "deepseek" then
    if ¬ dsEnabled then
      Except.error (modelUnavailableError "DeepSeek" (some "DeepSeek API yapılandırılmamış"))
    else
      match dsOutcome with
      | Except.ok t => Except.ok t
      | Except.error e => Except.error (modelUnavailableError "DeepSeek" (some e))
  else
    Except.ok (geminiAnswerText gemOutcome)

/-!
Daily query quota (`app/services/query_limit.py`).
-/

/-- `DAILY_QUERY_LIMIT` (`query_limit.py` line 9). -/
def DAILY_QUERY_LIMIT : Nat := 10

/-- The quota-relevant columns of `UserProfile`: `daily_query_count` and
`last_query_date` (dates encoded as naturals; only equality with today is
ever tested). -/
structure ProfileState where
  count : Nat
  lastDate : Nat
deriving DecidableEq

/-- The dict returned by `check_query_limit`. -/
structure QueryCheck where
  allowed : Bool
  remaining : Int
  limit : Nat
  used : Nat
deriving DecidableEq

/-- `check_query_limit` (`query_limit.py` lines 12-34): reset the counter
(and commit) when the stored date differs from today, then report
`allowed = remaining > 0` with `remaining = limit - count`. -/
def checkQueryLimit (p : ProfileState) (today : Nat) : ProfileState × QueryCheck :=
  let p1 := if p.lastDate ≠ today then ProfileState.mk 0 today else p
  let remaining : Int := (DAILY_QUERY_LIMIT : Int) - (p1.count : Int)
  (p1, ⟨remaining > 0, max 0 remaining, DAILY_QUERY_LIMIT, p1.count⟩)

/-- The dict returned by `increment_query_count`. -/
structure IncStatus where
  remaining : Int
  limit : Nat
  used : Nat
deriving DecidableEq

/-- `increment_query_count` (`query_limit.py` lines 37-61): reset the
counter when the stored date differs from today, then add one and commit. -/
def incrementQueryCount (p : ProfileState) (today : Nat) : ProfileState × IncStatus :=
  let p1 := if p.lastDate ≠ today then ProfileState.mk 0 today else p
  let p2 := ProfileState.mk (p1.count + 1) p1.lastDate
  let remaining : Int := (DAILY_QUERY_LIMIT : Int) - (p2.count : Int)
  (p2, ⟨max 0 remaining, DAILY_QUERY_LIMIT, p2.count⟩)

/-!
Chat endpoints (`app/api/endpoints/chat.py`): the post-authentication
control flow of `chat_message` and `multi_document_chat`.  Session and
document ownership lookups are pure CRUD validation that either raises
before any retrieval/generation work or passes through; they are elided.
-/

/-- HTTP-level failure classes raised by the chat endpoints. -/
inductive ChatError where
  | quotaExceeded
  | badRequest
  | emptyContent
  | modelUnavailable (e : ModelUnavailable)
  | internal
deriving DecidableEq

/-- `chat_message` (`chat.py` lines 215-339) from the quota check on:
check the daily limit (429 when exhausted), select context, fail with 404
`"Document has no content"` when the context is empty with mode EMPTY,
generate the answer (`ModelUnavailableError` → 503, any other exception →
500), and only after a successful generation increment the query count.
Returns the response together with the resulting profile state. -/
def chatMessage (p : ProfileState) (today : Nat) (doc : List Chunk)
    (model : String) (embResult : Except Unit (List Int)) (dist : Chunk → Nat)
    (dsEnabled : Bool) (dsOutcome : Except String String) (gemOutcome : GemOutcome) :
    Except ChatError String × ProfileState :=
  let pc := checkQueryLimit p today
  if ¬ pc.2.allowed then (Except.error ChatError.quotaExceeded, pc.1)
  else
    match getSmartContext doc model embResult dist with
    | Except.error _ => (Except.error ChatError.internal, pc.1)
    | Except.ok (ctx, mode) =>
      if ctx = [] ∧ mode = Mode.empty then (Except.error ChatError.emptyContent, pc.1)
      else
        match aiGenerateAnswer model dsEnabled dsOutcome gemOutcome with
        | Except.error e => (Except.error (ChatError.modelUnavailable e), pc.1)
        | Except.ok text => (Except.ok text, (incrementQueryCount pc.1 today).1)

/-- `f"[KAYNAK: {title}]\n{content}\n"` (`chat.py` line 455). -/
def sourceLabel (title : List Char) (content : List Char) : List Char :=
  ("[KAYNAK: ".toList) ++ title ++ (']' :: '\n' :: content) ++ ['\n']

/-- The combined multi-document context (`chat.py` lines 450-457):
documents whose retrieved content is empty are skipped, the rest get a
source label and are joined with `"\n---\n"`. -/
def buildCombined (titles : List (List Char)) (ctxs : List (List Char)) : List Char :=
  joinWithSep ("\n---\n".toList)
    (((titles.zip ctxs).filter (fun tc => tc.2 ≠ [])).map (fun tc => sourceLabel tc.1 tc.2))

/-- `max_chars = 120000 if request.model == "gemini" else 50000`
(`chat.py` line 460). -/
def maxChars (model : String) : Nat :=
  if model = "gemini" then 120000 else 50000

/-- Trace of one `multi_document_chat` request: the HTTP outcome, the
final profile state, whether answer generation was invoked, and the
combined context it was invoked with. -/
structure MultiChatResult where
  response : Except ChatError String
  profile : ProfileState
  generationCalled : Bool
  combinedContext : List Char

/-- `multi_document_chat` (`chat.py` lines 378-487) from the quota check
on: check the daily limit, validate the document count (1..10), select
multi-document context (an embedding exception → 500), build the labeled
combined context, truncate it to the model's character ceiling, invoke
answer generation — with no empty-content check of any kind — and
increment the quota only on success. -/
def multiDocumentChat (p : ProfileState) (today : Nat)
    (docs : List (List Chunk)) (titles : List (List Char)) (model : String)
    (embResult : Except Unit (List Int)) (dist : Chunk → Nat)
    (dsEnabled : Bool) (dsOutcome : Except String String) (gemOutcome : GemOutcome) :
    MultiChatResult :=
  let pc := checkQueryLimit p today
  if ¬ pc.2.allowed then ⟨Except.error ChatError.quotaExceeded, pc.1, false, []⟩
  else if docs.length = 0 then ⟨Except.error ChatError.badRequest, pc.1, false, []⟩
  else if 10 < docs.length then ⟨Except.error ChatError.badRequest, pc.1, false, []⟩
  else
    match getSmartContextMulti docs model embResult dist with
    | Except.error _ => ⟨Except.error ChatError.internal, pc.1, false, []⟩
    | Except.ok (ctxs, _mode) =>
      let combined := (buildCombined titles ctxs).take (maxChars model)
      match aiGenerateAnswerMultiDoc model dsEnabled dsOutcome gemOutcome with
      | Except.error e => ⟨Except.error (ChatError.modelUnavailable e), pc.1, true, combined⟩
      | Except.ok text => ⟨Except.ok text, (incrementQueryCount pc.1 today).1, true, combined⟩

/-!
Basic facts about the page-ordered retrieval.
-/

lemma insertByPage_ne_nil (c : Chunk) (l : List Chunk) : insertByPage c l ≠ [] := by
  cases l with
  | nil => simp [insertByPage]
  | cons d rest => simp only [insertByPage]; split <;> simp

lemma sortByPage_eq_nil_iff (l : List Chunk) : sortByPage l = [] ↔ l = [] := by
  cases l with
  | nil => simp [sortByPage]
  | cons c rest => simp [sortByPage, insertByPage_ne_nil]

lemma docChars_append (a b : List Chunk) : docChars (a ++ b) = docChars a + docChars b := by
  simp [docChars]

/-!
Characterization of `getSmartContext` / `getSmartContextMulti` by regime.
-/

lemma getSmartContext_of_lt_pos {doc : List Chunk} {model : String}
    {emb : Except Unit (List Int)} {dist : Chunk → Nat}
    (h : getDocumentTokenCount doc < tokenThreshold model) (hnil : doc ≠ []) :
    getSmartContext doc model emb dist = Except.ok (joinChunks (sortByPage doc), Mode.full) := by
  have hs : ¬ sortByPage doc = [] := fun hh => hnil ((sortByPage_eq_nil_iff doc).mp hh)
  simp [getSmartContext, h, hs]

lemma getSmartContext_of_lt_nil {doc : List Chunk} {model : String}
    {emb : Except Unit (List Int)} {dist : Chunk → Nat}
    (h : getDocumentTokenCount doc < tokenThreshold model) (hdoc : doc = []) :
    getSmartContext doc model emb dist = Except.ok ([], Mode.empty) := by
  subst hdoc
  simp [getSmartContext, h, sortByPage]

lemma getSmartContext_of_ge {doc : List Chunk} {model : String}
    {emb : Except Unit (List Int)} {dist : Chunk → Nat}
    (h : ¬ getDocumentTokenCount doc < tokenThreshold model) :
    (∃ ctx, getSmartContext doc model emb dist = Except.ok (ctx, Mode.rag))
    ∨ (∃ e, getSmartContext doc model emb dist = Except.error e) := by
  cases emb with
  | error e => exact Or.inr ⟨e, by simp [getSmartContext, h]⟩
  | ok qe =>
    left
    by_cases hq : qe ≠ [] ∧ qe.any (fun x => x ≠ 0)
    · exact ⟨_, by rw [getSmartContext]; rw [if_neg h]; exact if_pos hq⟩
    · exact ⟨_, by rw [getSmartContext]; rw [if_neg h]; exact if_neg hq⟩

lemma getSmartContextMulti_of_lt {docs : List (List Chunk)} {model : String}
    {emb : Except Unit (List Int)} {dist : Chunk → Nat}
    (h : multiTokenEstimate docs < multiThreshold model) :
    getSmartContextMulti docs model emb dist
      = Except.ok (docs.map (fun d => joinChunks (sortByPage d)), Mode.full) := by
  simp [getSmartContextMulti, h]

lemma getSmartContextMulti_of_ge {docs : List (List Chunk)} {model : String}
    {emb : Except Unit (List Int)} {dist : Chunk → Nat}
    (h : ¬ multiTokenEstimate docs < multiThreshold model) :
    (∃ ctxs, getSmartContextMulti docs model emb dist = Except.ok (ctxs, Mode.rag))
    ∨ (∃ e, getSmartContextMulti docs model emb dist = Except.error e) := by
  cases emb with
  | error e => exact Or.inr ⟨e, by simp [getSmartContextMulti, h]⟩
  | ok qe =>
    left
    by_cases hq : qe ≠ [] ∧ qe.any (fun x => x ≠ 0)
    · exact ⟨_, by rw [getSmartContextMulti]; rw [if_neg h]; exact if_pos hq⟩
    · exact ⟨_, by rw [getSmartContextMulti]; rw [if_neg h]; exact if_neg hq⟩

/-- C10: the daily quota is exactly 10 queries per user per day:
`check_query_limit` allows a query exactly when the (date-reset) counter is
strictly below the limit, and both `check_query_limit` and
`increment_query_count` reset the counter to zero (stamping today) before
evaluating or incrementing it whenever the stored date is not today. -/
theorem spec_C10 (p : ProfileState) (today : Nat) :
    ((checkQueryLimit p today).2.allowed = true
        ↔ (if p.lastDate = today then p.count else 0) < DAILY_QUERY_LIMIT)
    ∧ (checkQueryLimit p today).1
        = ProfileState.mk (if p.lastDate = today then p.count else 0) today
    ∧ (incrementQueryCount p today).1
        = ProfileState.mk ((if p.lastDate = today then p.count else 0) + 1) today
    ∧ DAILY_QUERY_LIMIT = 10 := by
  obtain ⟨c, d⟩ := p
  by_cases h : d = today
  · simp [checkQueryLimit, incrementQueryCount, DAILY_QUERY_LIMIT, h]
    try omega
  · simp [checkQueryLimit, incrementQueryCount, DAILY_QUERY_LIMIT, h]
    try omega

/-- C6: evaluation of the code at the failing input: with the gemini
backend selected and the underlying generation call raising
`Exception("boom")`, `AIService.generate_answer` returns ordinary answer
text (the error string produced by `GeminiService.generate_answer`'s
catch-all) instead of raising `ModelUnavailableError("Gemini", ...)` as
its own docstring promises. -/
theorem spec_C6_code_bug_eval :
    aiGenerateAnswer "gemini" true (Except.ok "cevap") (GemOutcome.err "boom")
      = Except.ok ("Yanıt oluşturulurken hata: boom")
    ∧ aiGenerateAnswer "gemini" true (Except.ok "cevap") GemOutcome.timeout
      = Except.ok ("Yanıt oluşturulurken zaman aşımı oldu. Lütfen tekrar deneyin.") :=
  ⟨rfl, rfl⟩

/-- C3: evaluation of the code at the failing input: `normalize_text_for_cache`
is not idempotent.  On `"a\n\n \n\nb"` the per-line trailing-whitespace strip
turns the whitespace-only line into an empty line AFTER newline runs were
collapsed, merging two 2-newline runs into a 4-newline run, so a second
application collapses further. -/
theorem spec_C3_code_bug_eval :
    normalizeTextForCache (normalizeTextForCache ("a\n\n \n\nb".toList))
        ≠ normalizeTextForCache ("a\n\n \n\nb".toList)
    ∧ normalizeTextForCache ("a\n\n \n\nb".toList) = "a\n\n\n\nb".toList
    ∧ normalizeTextForCache (normalizeTextForCache ("a\n\n \n\nb".toList)) = "a\n\nb".toList := by
  decide

/-- C2 counterexample: two documents of 2 characters each.  Summing the
per-document estimates gives `2/4 + 2/4 = 0`, while pooling the characters
first gives `(2+2)/4 = 1`; the two estimators are not equal. -/
theorem spec_C2_counterexample :
    multiTokenEstimate [[Chunk.mk 0 ['a', 'b']], [Chunk.mk 0 ['c', 'd']]]
      ≠ pooledTokenEstimate [[Chunk.mk 0 ['a', 'b']], [Chunk.mk 0 ['c', 'd']]] := by
  decide

/-- C2 (amended): the multi-document estimate (sum of per-document
`chars // 4`) is a lower bound on the single-pool estimate
(`(sum of chars) // 4`), and the two differ by at most the number of
documents minus one; they are not equal in general. -/
theorem spec_C2_amended (docs : List (List Chunk)) :
    multiTokenEstimate docs ≤ pooledTokenEstimate docs
    ∧ pooledTokenEstimate docs ≤ multiTokenEstimate docs + (docs.length - 1) := by
  induction docs with
  | nil => simp [multiTokenEstimate, pooledTokenEstimate, getDocumentTokenCount, docChars]
  | cons d rest ih =>
    cases rest with
    | nil =>
      simp [multiTokenEstimate, pooledTokenEstimate, getDocumentTokenCount, docChars]
    | cons e rest2 =>
      obtain ⟨ih1, ih2⟩ := ih
      have hm : multiTokenEstimate (d :: e :: rest2)
          = docChars d / 4 + multiTokenEstimate (e :: rest2) := by
        simp [multiTokenEstimate]
      have hp : pooledTokenEstimate (d :: e :: rest2)
          = (docChars d + docChars ((e :: rest2).flatten)) / 4 := by
        simp only [pooledTokenEstimate, getDocumentTokenCount, List.flatten_cons]
        rw [docChars_append]
      have hp2 : pooledTokenEstimate (e :: rest2) = docChars ((e :: rest2).flatten) / 4 := by
        simp [pooledTokenEstimate, getDocumentTokenCount]
      rw [hm, hp]
      rw [hp2] at ih1 ih2
      constructor
      · have h1 : docChars d / 4 + docChars ((e :: rest2).flatten) / 4
            ≤ (docChars d + docChars ((e :: rest2).flatten)) / 4 := by omega
        omega
      · have h2 : (docChars d + docChars ((e :: rest2).flatten)) / 4
            ≤ docChars d / 4 + docChars ((e :: rest2).flatten) / 4 + 1 := by omega
        simp only [List.length_cons] at ih2 ⊢
        omega

/-- C1 counterexample: a document with zero chunks under the deepseek
backend.  Its estimate (0) is strictly below the threshold (25000), yet
`get_smart_context` returns mode `"empty"`, not `"full"`. -/
theorem spec_C1_counterexample :
    getDocumentTokenCount ([] : List Chunk) < tokenThreshold "deepseek"
    ∧ getSmartContext [] "deepseek" (Except.ok [1]) (fun _ => 0)
        = Except.ok ([], Mode.empty) :=
  ⟨by decide, rfl⟩

/-- C1 (amended): `get_smart_context` picks FULL exactly when the estimate
is strictly below the backend's threshold AND the document has at least one
chunk (a chunk-less document yields mode EMPTY instead); at or above the
threshold the request goes down the RAG path (mode RAG, or a propagated
embedding exception).  For several documents `get_smart_context_multi`
uses the aggregate threshold `int(single * 1.5)` and picks FULL exactly
when the summed estimate is strictly below it (it has no EMPTY mode).
The thresholds are 25000 (deepseek) and 100000 (gemini). -/
theorem spec_C1_amended (doc : List Chunk) (docs : List (List Chunk)) (model : String)
    (emb : Except Unit (List Int)) (dist : Chunk → Nat) :
    ((∃ ctx, getSmartContext doc model emb dist = Except.ok (ctx, Mode.full))
        ↔ getDocumentTokenCount doc < tokenThreshold model ∧ doc ≠ [])
    ∧ (((∃ ctx, getSmartContext doc model emb dist = Except.ok (ctx, Mode.rag))
          ∨ (∃ e, getSmartContext doc model emb dist = Except.error e))
        ↔ tokenThreshold model ≤ getDocumentTokenCount doc)
    ∧ ((∃ ctxs, getSmartContextMulti docs model emb dist = Except.ok (ctxs, Mode.full))
        ↔ multiTokenEstimate docs < multiThreshold model)
    ∧ multiThreshold model = tokenThreshold model * 3 / 2
    ∧ tokenThreshold "deepseek" = 25000 ∧ tokenThreshold "gemini" = 100000 := by
  refine ⟨?_, ?_, ?_, rfl, rfl, rfl⟩
  · constructor
    · rintro ⟨ctx, hctx⟩
      by_cases h : getDocumentTokenCount doc < tokenThreshold model
      · refine ⟨h, ?_⟩
        intro hdoc
        rw [getSmartContext_of_lt_nil h hdoc] at hctx
        simp at hctx
      · rcases @getSmartContext_of_ge doc model emb dist h with ⟨c2, hc2⟩ | ⟨e, he⟩
        · rw [hctx] at hc2; simp at hc2
        · rw [hctx] at he; simp at he
    · rintro ⟨h, hnil⟩
      exact ⟨joinChunks (sortByPage doc), getSmartContext_of_lt_pos h hnil⟩
  · constructor
    · intro hcase
      by_cases h : getDocumentTokenCount doc < tokenThreshold model
      · exfalso
        by_cases hdoc : doc = []
        · rw [getSmartContext_of_lt_nil h hdoc] at hcase
          rcases hcase with ⟨c2, hc2⟩ | ⟨e, he⟩
          · simp at hc2
          · simp at he
        · rw [getSmartContext_of_lt_pos h hdoc] at hcase
          rcases hcase with ⟨c2, hc2⟩ | ⟨e, he⟩
          · simp at hc2
          · simp at he
      · omega
    · intro h
      exact getSmartContext_of_ge (by omega)
  · constructor
    · rintro ⟨ctxs, hctxs⟩
      by_cases h : multiTokenEstimate docs < multiThreshold model
      · exact h
      · rcases @getSmartContextMulti_of_ge docs model emb dist h with
          ⟨c2, hc2⟩ | ⟨e, he⟩
        · rw [hctxs] at hc2; simp at hc2
        · rw [hctxs] at he; simp at he
    · intro h
      exact ⟨_, getSmartContextMulti_of_lt h⟩

/-!
The page-ordered retrieval is a sorted permutation of the stored chunks.
-/

lemma insertByPage_perm (c : Chunk) (l : List Chunk) : (insertByPage c l).Perm (c :: l) := by
  induction l with
  | nil => exact List.Perm.refl _
  | cons d rest ih =>
    simp only [insertByPage]
    split
    · exact List.Perm.refl _
    · exact (ih.cons d).trans (List.Perm.swap c d rest)

lemma sortByPage_perm (l : List Chunk) : (sortByPage l).Perm l := by
  induction l with
  | nil => exact List.Perm.refl _
  | cons c rest ih => exact (insertByPage_perm c (sortByPage rest)).trans (ih.cons c)

lemma insertByPage_pairwise {c : Chunk} {l : List Chunk}
    (h : l.Pairwise (fun a b => a.page ≤ b.page)) :
    (insertByPage c l).Pairwise (fun a b => a.page ≤ b.page) := by
  induction l with
  | nil => simp [insertByPage]
  | cons d rest ih =>
    rw [List.pairwise_cons] at h
    obtain ⟨hd, hrest⟩ := h
    simp only [insertByPage]
    split
    · rename_i hcd
      refine List.pairwise_cons.mpr ⟨?_, List.pairwise_cons.mpr ⟨hd, hrest⟩⟩
      intro x hx
      rw [List.mem_cons] at hx
      rcases hx with rfl | hx
      · exact hcd
      · exact le_trans hcd (hd x hx)
    · rename_i hcd
      have hdc : d.page ≤ c.page := le_of_not_le hcd
      refine List.pairwise_cons.mpr ⟨?_, ih hrest⟩
      intro x hx
      have hx2 : x = c ∨ x ∈ rest := by
        have hmem := (insertByPage_perm c rest).mem_iff.mp hx
        simpa using hmem
      rcases hx2 with rfl | hx2
      · exact hdc
      · exact hd x hx2

lemma sortByPage_pairwise (l : List Chunk) :
    (sortByPage l).Pairwise (fun a b => a.page ≤ b.page) := by
  induction l with
  | nil => simp [sortByPage]
  | cons c rest ih => exact insertByPage_pairwise ih

/-- C9: for every document whose estimate is below its backend's
threshold (and that has at least one chunk, so FULL mode is reached) and
whose chunk ordinals are pairwise distinct — as the ingestion pipeline
guarantees by numbering chunks consecutively — FULL retrieval returns
every chunk (a permutation of the stored rows, no limit applied), ordered
by strictly ascending `page_number`. -/
theorem spec_C9 (doc : List Chunk) (model : String) (emb : Except Unit (List Int))
    (dist : Chunk → Nat)
    (h1 : getDocumentTokenCount doc < tokenThreshold model)
    (h2 : doc ≠ [])
    (h3 : doc.Pairwise (fun a b => a.page ≠ b.page)) :
    getSmartContext doc model emb dist = Except.ok (joinChunks (sortByPage doc), Mode.full)
    ∧ (sortByPage doc).Perm doc
    ∧ (sortByPage doc).Pairwise (fun a b => a.page < b.page) := by
  refine ⟨getSmartContext_of_lt_pos h1 h2, sortByPage_perm doc, ?_⟩
  have hne : (sortByPage doc).Pairwise (fun a b => a.page ≠ b.page) :=
    ((sortByPage_perm doc).pairwise_iff (fun {a b} hab => Ne.symm hab)).mpr h3
  exact ((sortByPage_pairwise doc).and hne).imp (fun h => lt_of_le_of_ne h.1 h.2)

/-- C9 witness: a two-chunk document stored out of order. -/
theorem spec_C9_witness :
    (getDocumentTokenCount [Chunk.mk 1 ['b'], Chunk.mk 0 ['a']] < tokenThreshold "deepseek"
      ∧ ([Chunk.mk 1 ['b'], Chunk.mk 0 ['a']] : List Chunk) ≠ []
      ∧ ([Chunk.mk 1 ['b'], Chunk.mk 0 ['a']] : List Chunk).Pairwise (fun a b => a.page ≠ b.page))
    ∧ (getSmartContext [Chunk.mk 1 ['b'], Chunk.mk 0 ['a']] "deepseek" (Except.ok [1]) (fun _ => 0)
          = Except.ok (joinChunks (sortByPage [Chunk.mk 1 ['b'], Chunk.mk 0 ['a']]), Mode.full)
        ∧ (sortByPage [Chunk.mk 1 ['b'], Chunk.mk 0 ['a']]).Perm [Chunk.mk 1 ['b'], Chunk.mk 0 ['a']]
        ∧ (sortByPage [Chunk.mk 1 ['b'], Chunk.mk 0 ['a']]).Pairwise (fun a b => a.page < b.page)) :=
  ⟨⟨by decide, by decide, by decide⟩,
    spec_C9 [Chunk.mk 1 ['b'], Chunk.mk 0 ['a']] "deepseek" (Except.ok [1]) (fun _ => 0)
      (by decide) (by decide) (by decide)⟩

/-!
C5: embedding failure handling in RAG mode.
-/

/-- A single-chunk document of 100000 characters: estimate 25000, exactly
at the deepseek threshold, so the RAG path is taken. -/
def largeDoc : List Chunk := [Chunk.mk 0 (List.replicate 100000 'a')]

lemma largeDoc_chars : docChars largeDoc = 100000 := by
  rw [largeDoc]
  unfold docChars
  rw [List.map_cons, List.map_nil, List.sum_cons, List.sum_nil]
  rw [show (Chunk.mk 0 (List.replicate 100000 'a')).content = List.replicate 100000 'a' from rfl]
  rw [List.length_replicate, Nat.add_zero]

lemma largeDoc_tokenCount : getDocumentTokenCount largeDoc = 25000 := by
  rw [getDocumentTokenCount, largeDoc_chars]

/-- C5 counterexample: in RAG mode, when the embedding provider raises on
all three attempts, `generate_embedding` re-raises (rather than returning
a sentinel) and `get_smart_context` propagates the exception: the query
fails, contradicting "the query never fails because of the embedding
failure". -/
theorem spec_C5_counterexample :
    generateEmbedding [Except.error (), Except.error (), Except.error ()] = Except.error ()
    ∧ getSmartContext largeDoc "deepseek"
        (generateEmbedding [Except.error (), Except.error (), Except.error ()]) (fun _ => 0)
      = Except.error () := by
  refine ⟨rfl, ?_⟩
  have hlt : ¬ getDocumentTokenCount largeDoc < tokenThreshold "deepseek" := by
    rw [largeDoc_tokenCount]; decide
  show getSmartContext largeDoc "deepseek" (Except.error ()) (fun _ => 0) = Except.error ()
  simp [getSmartContext, hlt]

/-- C5 (amended): in RAG mode, when the embedding call RETURNS a falsy or
all-zero vector, retrieval falls back to the first 5 chunks in
`page_number` order and the query succeeds; but when the embedding call
raises (e.g. after exhausting its retries), the exception propagates out
of `get_smart_context` and the query fails. -/
theorem spec_C5_amended (doc : List Chunk) (model : String) (dist : Chunk → Nat)
    (h : tokenThreshold model ≤ getDocumentTokenCount doc) :
    (∀ qe : List Int, qe.all (fun x => x = 0) →
      getSmartContext doc model (Except.ok qe) dist
        = Except.ok (joinChunks ((sortByPage doc).take 5), Mode.rag))
    ∧ (∀ e : Unit, getSmartContext doc model (Except.error e) dist = Except.error e) := by
  have hlt : ¬ getDocumentTokenCount doc < tokenThreshold model := by omega
  constructor
  · intro qe hqe
    have hq : ¬ (qe ≠ [] ∧ qe.any (fun x => x ≠ 0)) := by
      rintro ⟨_hne, hany⟩
      rw [List.any_eq_true] at hany
      obtain ⟨x, hx, hx0⟩ := hany
      rw [List.all_eq_true] at hqe
      have hx1 := hqe x hx
      simp at hx1 hx0
      exact hx0 hx1
    rw [getSmartContext]
    rw [if_neg hlt]
    exact if_neg hq
  · intro e
    simp [getSmartContext, hlt]

/-- C5 witness: the at-threshold document with an all-zero query embedding. -/
theorem spec_C5_witness :
    tokenThreshold "deepseek" ≤ getDocumentTokenCount largeDoc
    ∧ getSmartContext largeDoc "deepseek" (Except.ok [0, 0, 0]) (fun _ => 0)
        = Except.ok (joinChunks ((sortByPage largeDoc).take 5), Mode.rag) := by
  have h : tokenThreshold "deepseek" ≤ getDocumentTokenCount largeDoc := by
    rw [largeDoc_tokenCount]; decide
  exact ⟨h, (spec_C5_amended largeDoc "deepseek" (fun _ => 0) h).1 [0, 0, 0] (by decide)⟩

/-!
C7 / C8: endpoint control flow.
-/

lemma checkQueryLimit_lastDate (p : ProfileState) (today : Nat) :
    (checkQueryLimit p today).1.lastDate = today := by
  by_cases h : p.lastDate = today <;> simp [checkQueryLimit, h]

lemma incrementQueryCount_count_today {p : ProfileState} {today : Nat}
    (h : p.lastDate = today) :
    (incrementQueryCount p today).1.count = p.count + 1 := by
  simp [incrementQueryCount, h]

lemma chatMessage_eq_gen {p : ProfileState} {today : Nat} {doc : List Chunk} {model : String}
    {emb : Except Unit (List Int)} {dist : Chunk → Nat} {dsEnabled : Bool}
    {dsOutcome : Except String String} {gemOutcome : GemOutcome} {ctx : List Char} {mode : Mode}
    (ha : (checkQueryLimit p today).2.allowed = true)
    (hg : getSmartContext doc model emb dist = Except.ok (ctx, mode))
    (hempty : ¬(ctx = [] ∧ mode = Mode.empty)) :
    chatMessage p today doc model emb dist dsEnabled dsOutcome gemOutcome
      = match aiGenerateAnswer model dsEnabled dsOutcome gemOutcome with
        | Except.error e =>
            (Except.error (ChatError.modelUnavailable e), (checkQueryLimit p today).1)
        | Except.ok text =>
            (Except.ok text, (incrementQueryCount (checkQueryLimit p today).1 today).1) := by
  simp only [chatMessage]
  rw [if_neg (not_not_intro ha), hg]
  show (if ctx = [] ∧ mode = Mode.empty then _ else _) = _
  rw [if_neg hempty]

/-- C7: in `chat_message`, after the quota check the daily counter is
incremented exactly once when the answer-generation stage succeeds (quota
allowed, non-empty context reached, `ai_service.generate_answer` returned
normally) and is left at its post-check value in every failure path;
the final count is never anything other than those two values. -/
theorem spec_C7 (p : ProfileState) (today : Nat) (doc : List Chunk) (model : String)
    (emb : Except Unit (List Int)) (dist : Chunk → Nat)
    (dsEnabled : Bool) (dsOutcome : Except String String) (gemOutcome : GemOutcome) :
    ((chatMessage p today doc model emb dist dsEnabled dsOutcome gemOutcome).2.count
        = (checkQueryLimit p today).1.count + 1
      ↔ ((checkQueryLimit p today).2.allowed = true
          ∧ (∃ ctx mode, getSmartContext doc model emb dist = Except.ok (ctx, mode)
              ∧ ¬(ctx = [] ∧ mode = Mode.empty))
          ∧ ∃ t, aiGenerateAnswer model dsEnabled dsOutcome gemOutcome = Except.ok t))
    ∧ ((chatMessage p today doc model emb dist dsEnabled dsOutcome gemOutcome).2.count
        = (checkQueryLimit p today).1.count
      ∨ (chatMessage p today doc model emb dist dsEnabled dsOutcome gemOutcome).2.count
        = (checkQueryLimit p today).1.count + 1) := by
  have hld := checkQueryLimit_lastDate p today
  by_cases ha : (checkQueryLimit p today).2.allowed = true
  · cases hg : getSmartContext doc model emb dist with
    | error e =>
      have hcount : (chatMessage p today doc model emb dist dsEnabled dsOutcome gemOutcome).2
          = (checkQueryLimit p today).1 := by
        simp only [chatMessage]
        rw [if_neg (not_not_intro ha), hg]
      rw [hcount]
      constructor
      · constructor
        · intro habs; exact absurd habs (by omega)
        · rintro ⟨-, ⟨ctx, mode, hok, -⟩, -⟩
          simp at hok
      · exact Or.inl rfl
    | ok cm =>
      obtain ⟨ctx, mode⟩ := cm
      by_cases hempty : ctx = [] ∧ mode = Mode.empty
      · obtain ⟨rfl, rfl⟩ := hempty
        have hcount : (chatMessage p today doc model emb dist dsEnabled dsOutcome gemOutcome).2
            = (checkQueryLimit p today).1 := by
          simp only [chatMessage]
          rw [if_neg (not_not_intro ha), hg]
          rfl
        rw [hcount]
        constructor
        · constructor
          · intro habs; exact absurd habs (by omega)
          · rintro ⟨-, ⟨ctx2, mode2, hok, hne⟩, -⟩
            rw [Except.ok.injEq, Prod.mk.injEq] at hok
            exact (hne ⟨hok.1.symm, hok.2.symm⟩).elim
        · exact Or.inl rfl
      · cases hgen : aiGenerateAnswer model dsEnabled dsOutcome gemOutcome with
        | error e2 =>
          have hcount : (chatMessage p today doc model emb dist dsEnabled dsOutcome gemOutcome).2
              = (checkQueryLimit p today).1 := by
            rw [chatMessage_eq_gen ha hg hempty, hgen]
          rw [hcount]
          constructor
          · constructor
            · intro habs; exact absurd habs (by omega)
            · rintro ⟨-, -, ⟨t, ht⟩⟩
              simp at ht
          · exact Or.inl rfl
        | ok t =>
          have hcount : (chatMessage p today doc model emb dist dsEnabled dsOutcome gemOutcome).2
              = (incrementQueryCount (checkQueryLimit p today).1 today).1 := by
            rw [chatMessage_eq_gen ha hg hempty, hgen]
          have hcnt := @incrementQueryCount_count_today (checkQueryLimit p today).1 today hld
          rw [hcount, hcnt]
          constructor
          · constructor
            · intro _
              exact ⟨ha, ⟨ctx, mode, rfl, hempty⟩, ⟨t, rfl⟩⟩
            · intro _; rfl
          · exact Or.inr rfl
  · have hcount : (chatMessage p today doc model emb dist dsEnabled dsOutcome gemOutcome).2
        = (checkQueryLimit p today).1 := by
      simp only [chatMessage]
      rw [if_pos ha]
    rw [hcount]
    constructor
    · constructor
      · intro habs; exact absurd habs (by omega)
      · rintro ⟨hall, -, -⟩; exact (ha hall).elim
    · exact Or.inl rfl

lemma tokenThreshold_ge (model : String) : 25000 ≤ tokenThreshold model := by
  unfold tokenThreshold
  split
  · exact le_refl _
  · split
    · norm_num
    · exact le_refl _

lemma multiThreshold_pos (model : String) : 0 < multiThreshold model := by
  have h := tokenThreshold_ge model
  unfold multiThreshold
  omega

/-- C8 counterexample: a multi-document request over two chunk-less
documents.  The pipeline reports no empty-content failure: generation is
invoked with an empty combined context and its answer is returned as a
real answer. -/
theorem spec_C8_counterexample :
    (multiDocumentChat ⟨0, 0⟩ 0 [[], []] ["A".toList, "B".toList] "deepseek" (Except.ok [])
        (fun _ => 0) true (Except.ok "cevap") (GemOutcome.ok "x")).response = Except.ok "cevap"
    ∧ (multiDocumentChat ⟨0, 0⟩ 0 [[], []] ["A".toList, "B".toList] "deepseek" (Except.ok [])
        (fun _ => 0) true (Except.ok "cevap") (GemOutcome.ok "x")).generationCalled = true
    ∧ (multiDocumentChat ⟨0, 0⟩ 0 [[], []] ["A".toList, "B".toList] "deepseek" (Except.ok [])
        (fun _ => 0) true (Except.ok "cevap") (GemOutcome.ok "x")).combinedContext = [] :=
  ⟨rfl, rfl, rfl⟩

/-- C8 (amended): a single-document request whose document has no chunks
fails with the empty-content error (404 "Document has no content") before
generation and without touching the counter; a multi-document request
performs no such check: when every selected document yields no chunks the
pipeline still invokes answer generation, with an empty combined context. -/
theorem spec_C8_amended (p : ProfileState) (today : Nat) (docs : List (List Chunk))
    (titles : List (List Char)) (model : String) (emb : Except Unit (List Int))
    (dist : Chunk → Nat) (dsEnabled : Bool) (dsOutcome : Except String String)
    (gemOutcome : GemOutcome)
    (ha : (checkQueryLimit p today).2.allowed = true) :
    chatMessage p today [] model emb dist dsEnabled dsOutcome gemOutcome
        = (Except.error ChatError.emptyContent, (checkQueryLimit p today).1)
    ∧ ((∀ d ∈ docs, d = []) → docs ≠ [] → docs.length ≤ 10 →
        (multiDocumentChat p today docs titles model emb dist dsEnabled dsOutcome
            gemOutcome).generationCalled = true
        ∧ (multiDocumentChat p today docs titles model emb dist dsEnabled dsOutcome
            gemOutcome).combinedContext = []) := by
  constructor
  · have hlt : getDocumentTokenCount [] < tokenThreshold model := by
      have h := tokenThreshold_ge model
      have h0 : getDocumentTokenCount [] = 0 := rfl
      omega
    have hg := @getSmartContext_of_lt_nil [] model emb dist hlt rfl
    simp only [chatMessage, hg, ha, not_true, if_false]
    simp
  · intro hall hne hlen
    have hest : multiTokenEstimate docs = 0 := by
      apply List.sum_eq_zero
      intro x hx
      rw [List.mem_map] at hx
      obtain ⟨d, hd, rfl⟩ := hx
      rw [hall d hd]
      rfl
    have hlt : multiTokenEstimate docs < multiThreshold model := by
      rw [hest]; exact multiThreshold_pos model
    have hg := @getSmartContextMulti_of_lt docs model emb dist hlt
    have hctxs : ∀ c ∈ docs.map (fun d => joinChunks (sortByPage d)), c = [] := by
      intro c hc
      rw [List.mem_map] at hc
      obtain ⟨d, hd, rfl⟩ := hc
      rw [hall d hd]
      rfl
    have hcomb : buildCombined titles (docs.map (fun d => joinChunks (sortByPage d))) = [] := by
      unfold buildCombined
      have hfilt : ((titles.zip (docs.map (fun d => joinChunks (sortByPage d)))).filter
          (fun tc => tc.2 ≠ [])) = [] := by
        rw [List.filter_eq_nil_iff]
        rintro ⟨t, c⟩ htc
        have hc := (List.of_mem_zip htc).2
        simp [hctxs c hc]
      rw [hfilt]
      rfl
    have hlen0 : ¬ docs.length = 0 := by
      intro h0
      exact hne (List.length_eq_zero.mp h0)
    have hlen10 : ¬ 10 < docs.length := by omega
    cases hgen : aiGenerateAnswerMultiDoc model dsEnabled dsOutcome gemOutcome with
    | error e =>
      simp only [multiDocumentChat, ha, not_true, if_false, hlen0, hlen10, hg, hgen, hcomb]
      simp
    | ok t =>
      simp only [multiDocumentChat, ha, not_true, if_false, hlen0, hlen10, hg, hgen, hcomb]
      simp

/-- C8 witness: two chunk-less documents, fresh profile. -/
theorem spec_C8_witness :
    (checkQueryLimit ⟨0, 0⟩ 0).2.allowed = true
    ∧ chatMessage ⟨0, 0⟩ 0 [] "deepseek" (Except.ok []) (fun _ => 0) true
        (Except.ok "cevap") (GemOutcome.ok "x")
        = (Except.error ChatError.emptyContent, (checkQueryLimit ⟨0, 0⟩ 0).1)
    ∧ (multiDocumentChat ⟨0, 0⟩ 0 [[], []] ["A".toList, "B".toList] "deepseek" (Except.ok [])
        (fun _ => 0) true (Except.ok "cevap") (GemOutcome.ok "x")).generationCalled = true
    ∧ (multiDocumentChat ⟨0, 0⟩ 0 [[], []] ["A".toList, "B".toList] "deepseek" (Except.ok [])
        (fun _ => 0) true (Except.ok "cevap") (GemOutcome.ok "x")).combinedContext = [] := by
  have h := spec_C8_amended ⟨0, 0⟩ 0 [[], []] ["A".toList, "B".toList] "deepseek"
    (Except.ok []) (fun _ => 0) true (Except.ok "cevap") (GemOutcome.ok "x") (by decide)
  have h2 := h.2 (by decide) (by decide) (by decide)
  exact ⟨by decide, h.1, h2.1, h2.2⟩

/-!
C4: what the normalization pipeline guarantees about whitespace runs.
-/

lemma take_one_eq_iff (l : List Char) (a : Char) : l.take 1 = [a] ↔ l.head? = some a := by
  cases l <;> simp

lemma collapseSpaces_cons₁ {a : Char} (r : List Char) (hA : a ≠ ' ') :
    collapseSpaces (a :: r) = a :: collapseSpaces r := by
  cases r with
  | nil => rfl
  | cons b t =>
    simp only [collapseSpaces]
    rw [if_neg (fun h => hA h.1)]

lemma collapseSpaces_cons₂ {b : Char} (a : Char) (t : List Char) (hB : b ≠ ' ') :
    collapseSpaces (a :: b :: t) = a :: collapseSpaces (b :: t) := by
  simp only [collapseSpaces]
  rw [if_neg (fun h => hB h.2)]

lemma collapseSpaces_head (l : List Char) : (collapseSpaces l).head? = l.head? := by
  induction l with
  | nil => rfl
  | cons a t ih =>
    cases t with
    | nil => rfl
    | cons b t2 =>
      by_cases hab : a = ' ' ∧ b = ' '
      · obtain ⟨rfl, rfl⟩ := hab
        have hstep : collapseSpaces (' ' :: ' ' :: t2) = collapseSpaces (' ' :: t2) := by
          simp [collapseSpaces]
        rw [hstep, ih]
        rfl
      · have hstep : collapseSpaces (a :: b :: t2) = a :: collapseSpaces (b :: t2) := by
          simp only [collapseSpaces]
          rw [if_neg hab]
        rw [hstep]
        rfl

lemma collapseNewlines_cons₁ {b : Char} (r : List Char) (hB : b ≠ '\n') :
    collapseNewlines (b :: r) = b :: collapseNewlines r := by
  cases r with
  | nil => rfl
  | cons c t3 =>
    cases t3 with
    | nil => rfl
    | cons d t4 =>
      simp only [collapseNewlines]
      rw [if_neg (fun h => hB h.1)]

lemma collapseNewlines_cons₂ {c : Char} (b : Char) (t3 : List Char) (hC : c ≠ '\n') :
    collapseNewlines (b :: c :: t3) = b :: collapseNewlines (c :: t3) := by
  cases t3 with
  | nil => rfl
  | cons d t4 =>
    simp only [collapseNewlines]
    rw [if_neg (fun h => hC h.2.1)]

lemma collapseNewlines_head (l : List Char) : (collapseNewlines l).head? = l.head? := by
  induction l with
  | nil => rfl
  | cons a t ih =>
    cases t with
    | nil => rfl
    | cons b t2 =>
      cases t2 with
      | nil => rfl
      | cons c t3 =>
        by_cases habc : a = '\n' ∧ b = '\n' ∧ c = '\n'
        · obtain ⟨rfl, rfl, rfl⟩ := habc
          have hstep : collapseNewlines ('\n' :: '\n' :: '\n' :: t3)
              = collapseNewlines ('\n' :: '\n' :: t3) := by
            simp [collapseNewlines]
          rw [hstep, ih]
          rfl
        · have hstep : collapseNewlines (a :: b :: c :: t3)
              = a :: collapseNewlines (b :: c :: t3) := by
            simp only [collapseNewlines]
            rw [if_neg habc]
          rw [hstep]
          rfl

lemma hasDoubleSpace_cons_false {a : Char} {X : List Char} (hX : hasDoubleSpace X = false)
    (hh : ¬(a = ' ' ∧ X.head? = some ' ')) : hasDoubleSpace (a :: X) = false := by
  simp only [hasDoubleSpace, hX, Bool.or_false]
  by_cases hA : a = ' '
  · have ht : ¬ X.take 1 = [' '] := by
      intro hcon
      rw [take_one_eq_iff] at hcon
      exact hh ⟨hA, hcon⟩
    simp [hA, ht]
  · simp [hA]

lemma hasDoubleSpace_cons_elim {a : Char} {X : List Char}
    (h : hasDoubleSpace (a :: X) = false) :
    hasDoubleSpace X = false ∧ ¬(a = ' ' ∧ X.head? = some ' ') := by
  simp only [hasDoubleSpace, Bool.or_eq_false_iff] at h
  obtain ⟨h1, h2⟩ := h
  refine ⟨h2, ?_⟩
  rintro ⟨hA, hh⟩
  rw [← take_one_eq_iff] at hh
  simp [hA, hh] at h1

lemma hasTripleNewline_cons_false {a : Char} {X : List Char}
    (hX : hasTripleNewline X = false)
    (hh : ¬(a = '\n' ∧ X.take 2 = ['\n', '\n'])) : hasTripleNewline (a :: X) = false := by
  simp only [hasTripleNewline, hX, Bool.or_false]
  by_cases hA : a = '\n'
  · have ht : ¬ X.take 2 = ['\n', '\n'] := fun hcon => hh ⟨hA, hcon⟩
    simp [hA, ht]
  · simp [hA]

lemma hasDoubleSpace_collapseSpaces (l : List Char) :
    hasDoubleSpace (collapseSpaces l) = false := by
  induction l with
  | nil => rfl
  | cons a t ih =>
    cases t with
    | nil => simp [collapseSpaces, hasDoubleSpace]
    | cons b t2 =>
      by_cases hab : a = ' ' ∧ b = ' '
      · obtain ⟨rfl, rfl⟩ := hab
        have hstep : collapseSpaces (' ' :: ' ' :: t2) = collapseSpaces (' ' :: t2) := by
          simp [collapseSpaces]
        rw [hstep]
        exact ih
      · have hstep : collapseSpaces (a :: b :: t2) = a :: collapseSpaces (b :: t2) := by
          simp only [collapseSpaces]
          rw [if_neg hab]
        rw [hstep]
        apply hasDoubleSpace_cons_false ih
        rintro ⟨hA, hh⟩
        rw [collapseSpaces_head] at hh
        simp only [List.head?_cons, Option.some.injEq] at hh
        exact hab ⟨hA, hh⟩

lemma hasTripleNewline_collapseNewlines (l : List Char) :
    hasTripleNewline (collapseNewlines l) = false := by
  induction l with
  | nil => rfl
  | cons a t ih =>
    cases t with
    | nil => simp [collapseNewlines, hasTripleNewline]
    | cons b t2 =>
      cases t2 with
      | nil => simp [collapseNewlines, hasTripleNewline]
      | cons c t3 =>
        by_cases habc : a = '\n' ∧ b = '\n' ∧ c = '\n'
        · have hstep : collapseNewlines (a :: b :: c :: t3)
              = collapseNewlines (b :: c :: t3) := by
            simp only [collapseNewlines]
            rw [if_pos habc]
          rw [hstep]
          exact ih
        · have hstep : collapseNewlines (a :: b :: c :: t3)
              = a :: collapseNewlines (b :: c :: t3) := by
            simp only [collapseNewlines]
            rw [if_neg habc]
          rw [hstep]
          apply hasTripleNewline_cons_false ih
          rintro ⟨hA, hcon⟩
          by_cases hB : b = '\n'
          · have hC : c ≠ '\n' := fun hc => habc ⟨hA, hB, hc⟩
            rw [collapseNewlines_cons₂ b t3 hC] at hcon
            cases hX : collapseNewlines (c :: t3) with
            | nil => rw [hX] at hcon; simp [List.take] at hcon
            | cons x xs =>
              rw [hX] at hcon
              have hhead := collapseNewlines_head (c :: t3)
              rw [hX] at hhead
              simp only [List.head?_cons, Option.some.injEq] at hhead
              simp only [List.take, List.cons.injEq] at hcon
              exact hC (hhead ▸ hcon.2.1)
          · rw [collapseNewlines_cons₁ (c :: t3) hB] at hcon
            simp only [List.take, List.cons.injEq] at hcon
            exact hB hcon.1

lemma hasDoubleSpace_collapseNewlines {l : List Char} (h : hasDoubleSpace l = false) :
    hasDoubleSpace (collapseNewlines l) = false := by
  induction l with
  | nil => exact h
  | cons a t ih =>
    obtain ⟨h2, h1⟩ := hasDoubleSpace_cons_elim h
    cases t with
    | nil => exact h
    | cons b t2 =>
      cases t2 with
      | nil => exact h
      | cons c t3 =>
        by_cases habc : a = '\n' ∧ b = '\n' ∧ c = '\n'
        · have hstep : collapseNewlines (a :: b :: c :: t3)
              = collapseNewlines (b :: c :: t3) := by
            simp only [collapseNewlines]
            rw [if_pos habc]
          rw [hstep]
          exact ih h2
        · have hstep : collapseNewlines (a :: b :: c :: t3)
              = a :: collapseNewlines (b :: c :: t3) := by
            simp only [collapseNewlines]
            rw [if_neg habc]
          rw [hstep]
          apply hasDoubleSpace_cons_false (ih h2)
          rintro ⟨hA, hh⟩
          rw [collapseNewlines_head] at hh
          exact h1 ⟨hA, hh⟩

lemma hasDoubleSpace_append_right {a b : List Char}
    (h : hasDoubleSpace (a ++ b) = false) : hasDoubleSpace b = false := by
  induction a with
  | nil => exact h
  | cons x t ih => exact ih (hasDoubleSpace_cons_elim h).1

lemma hasDoubleSpace_append_left {a b : List Char}
    (h : hasDoubleSpace (a ++ b) = false) : hasDoubleSpace a = false := by
  induction a with
  | nil => rfl
  | cons x t ih =>
    obtain ⟨h2, h1⟩ := hasDoubleSpace_cons_elim h
    apply hasDoubleSpace_cons_false (ih h2)
    rintro ⟨hA, hh⟩
    apply h1
    refine ⟨hA, ?_⟩
    cases t with
    | nil => simp at hh
    | cons y ys => simpa using hh

lemma hasDoubleSpace_append_sep {a b : List Char} {c : Char} (hc : c ≠ ' ')
    (ha : hasDoubleSpace a = false) (hb : hasDoubleSpace b = false) :
    hasDoubleSpace (a ++ c :: b) = false := by
  induction a with
  | nil =>
    apply hasDoubleSpace_cons_false hb
    rintro ⟨hA, -⟩
    exact hc hA
  | cons x t ih =>
    obtain ⟨h2, h1⟩ := hasDoubleSpace_cons_elim ha
    apply hasDoubleSpace_cons_false (ih h2)
    rintro ⟨hA, hh⟩
    cases t with
    | nil =>
      simp only [List.nil_append, List.head?_cons, Option.some.injEq] at hh
      exact hc hh
    | cons y ys =>
      simp only [List.cons_append, List.head?_cons, Option.some.injEq] at hh
      exact h1 ⟨hA, by simp [hh]⟩

lemma rstripLine_append_eq (l : List Char) :
    rstripLine l ++ (l.reverse.takeWhile pyIsSpace).reverse = l := by
  rw [rstripLine, ← List.reverse_append, List.takeWhile_append_dropWhile, List.reverse_reverse]

lemma hasDoubleSpace_rstripLine {l : List Char} (h : hasDoubleSpace l = false) :
    hasDoubleSpace (rstripLine l) = false := by
  rw [← rstripLine_append_eq l] at h
  exact hasDoubleSpace_append_left h

lemma hasDoubleSpace_dropWhile {l : List Char} (h : hasDoubleSpace l = false) :
    hasDoubleSpace (l.dropWhile pyIsSpace) = false := by
  have e := List.takeWhile_append_dropWhile pyIsSpace l
  rw [← e] at h
  exact hasDoubleSpace_append_right h

lemma hasDoubleSpace_pyStrip {l : List Char} (h : hasDoubleSpace l = false) :
    hasDoubleSpace (pyStrip l) = false := by
  rw [pyStrip]
  exact hasDoubleSpace_rstripLine (hasDoubleSpace_dropWhile h)

lemma splitNL_ne_nil (l : List Char) : splitNL l ≠ [] := by
  cases l with
  | nil => simp [splitNL]
  | cons c rest =>
    simp only [splitNL]
    split
    · simp
    · cases hsp : splitNL rest with
      | nil => simp
      | cons l0 ls => simp

lemma splitNL_head_head {t : List Char} {h : List Char} {ts : List (List Char)}
    (hsp : splitNL t = h :: ts) (hne : h ≠ []) : h.head? = t.head? := by
  cases t with
  | nil =>
    simp only [splitNL, List.cons.injEq] at hsp
    exact absurd hsp.1.symm hne
  | cons c rest =>
    by_cases hc : c = '\n'
    · simp only [splitNL] at hsp
      rw [if_pos hc] at hsp
      rw [List.cons.injEq] at hsp
      exact absurd hsp.1.symm hne
    · simp only [splitNL] at hsp
      rw [if_neg hc] at hsp
      cases hsp2 : splitNL rest with
      | nil => exact absurd hsp2 (splitNL_ne_nil rest)
      | cons l0 ls =>
        rw [hsp2, List.cons.injEq] at hsp
        rw [← hsp.1]
        rfl

lemma hasDoubleSpace_splitNL {l : List Char} (h : hasDoubleSpace l = false) :
    ∀ p ∈ splitNL l, hasDoubleSpace p = false := by
  induction l with
  | nil =>
    intro p hp
    simp only [splitNL, List.mem_singleton] at hp
    subst hp
    rfl
  | cons c rest ih =>
    obtain ⟨h2, h1⟩ := hasDoubleSpace_cons_elim h
    intro p hp
    by_cases hc : c = '\n'
    · simp only [splitNL] at hp
      rw [if_pos hc, List.mem_cons] at hp
      rcases hp with rfl | hp
      · rfl
      · exact ih h2 p hp
    · simp only [splitNL] at hp
      rw [if_neg hc] at hp
      cases hsp : splitNL rest with
      | nil => exact absurd hsp (splitNL_ne_nil rest)
      | cons l0 ls =>
        rw [hsp, List.mem_cons] at hp
        rcases hp with rfl | hp
        · have hl0 : hasDoubleSpace l0 = false :=
            ih h2 l0 (by rw [hsp]; exact List.mem_cons_self _ _)
          apply hasDoubleSpace_cons_false hl0
          rintro ⟨hA, hh⟩
          have hne : l0 ≠ [] := by
            intro hl
            rw [hl] at hh
            simp at hh
          rw [splitNL_head_head hsp hne] at hh
          exact h1 ⟨hA, hh⟩
        · exact ih h2 p (by rw [hsp]; exact List.mem_cons_of_mem _ hp)

lemma joinNL_cons_cons (p q : List Char) (rest : List (List Char)) :
    joinNL (p :: q :: rest) = p ++ '\n' :: joinNL (q :: rest) := by
  simp [joinNL, joinWithSep]

lemma hasDoubleSpace_joinNL {parts : List (List Char)}
    (h : ∀ p ∈ parts, hasDoubleSpace p = false) :
    hasDoubleSpace (joinNL parts) = false := by
  induction parts with
  | nil => rfl
  | cons p rest ih =>
    cases rest with
    | nil => exact h p (List.mem_cons_self _ _)
    | cons q rest2 =>
      rw [joinNL_cons_cons]
      exact hasDoubleSpace_append_sep (by decide) (h p (List.mem_cons_self _ _))
        (ih (fun r hr => h r (List.mem_cons_of_mem _ hr)))

lemma hasDoubleSpace_normalize (s : List Char) :
    hasDoubleSpace (normalizeTextForCache s) = false := by
  rw [normalizeTextForCache]
  split
  · rfl
  · apply hasDoubleSpace_pyStrip
    apply hasDoubleSpace_joinNL
    intro p hp
    rw [List.mem_map] at hp
    obtain ⟨q, hq, rfl⟩ := hp
    apply hasDoubleSpace_rstripLine
    exact hasDoubleSpace_splitNL
      (hasDoubleSpace_collapseNewlines (hasDoubleSpace_collapseSpaces _)) q hq

lemma filterNonWs_cons_ws {c : Char} (l : List Char) (hc : pyIsSpace c = true) :
    filterNonWs (c :: l) = filterNonWs l := by
  simp [filterNonWs, List.filter_cons, hc]

lemma filterNonWs_cons_nws {c : Char} (l : List Char) (hc : pyIsSpace c = false) :
    filterNonWs (c :: l) = c :: filterNonWs l := by
  simp [filterNonWs, List.filter_cons, hc]

lemma filterNonWs_append (a b : List Char) :
    filterNonWs (a ++ b) = filterNonWs a ++ filterNonWs b := by
  simp [filterNonWs, List.filter_append]

lemma filterNonWs_collapseSpaces (l : List Char) :
    filterNonWs (collapseSpaces l) = filterNonWs l := by
  induction l with
  | nil => rfl
  | cons a t ih =>
    cases t with
    | nil => rfl
    | cons b t2 =>
      by_cases hab : a = ' ' ∧ b = ' '
      · obtain ⟨rfl, rfl⟩ := hab
        have hstep : collapseSpaces (' ' :: ' ' :: t2) = collapseSpaces (' ' :: t2) := by
          simp [collapseSpaces]
        rw [hstep, ih]
        rw [show filterNonWs (' ' :: ' ' :: t2) = filterNonWs (' ' :: t2) from
          filterNonWs_cons_ws _ (by decide)]
      · have hstep : collapseSpaces (a :: b :: t2) = a :: collapseSpaces (b :: t2) := by
          simp only [collapseSpaces]
          rw [if_neg hab]
        rw [hstep]
        by_cases hA : pyIsSpace a = true
        · rw [filterNonWs_cons_ws _ hA, filterNonWs_cons_ws _ hA, ih]
        · have hA2 : pyIsSpace a = false := by rwa [Bool.not_eq_true] at hA
          rw [filterNonWs_cons_nws _ hA2, filterNonWs_cons_nws _ hA2, ih]

lemma filterNonWs_collapseNewlines (l : List Char) :
    filterNonWs (collapseNewlines l) = filterNonWs l := by
  induction l with
  | nil => rfl
  | cons a t ih =>
    cases t with
    | nil => rfl
    | cons b t2 =>
      cases t2 with
      | nil => rfl
      | cons c t3 =>
        by_cases habc : a = '\n' ∧ b = '\n' ∧ c = '\n'
        · obtain ⟨rfl, rfl, rfl⟩ := habc
          have hstep : collapseNewlines ('\n' :: '\n' :: '\n' :: t3)
              = collapseNewlines ('\n' :: '\n' :: t3) := by
            simp [collapseNewlines]
          rw [hstep, ih]
          rw [show filterNonWs ('\n' :: '\n' :: '\n' :: t3) = filterNonWs ('\n' :: '\n' :: t3) from
            filterNonWs_cons_ws _ (by decide)]
        · have hstep : collapseNewlines (a :: b :: c :: t3)
              = a :: collapseNewlines (b :: c :: t3) := by
            simp only [collapseNewlines]
            rw [if_neg habc]
          rw [hstep]
          by_cases hA : pyIsSpace a = true
          · rw [filterNonWs_cons_ws _ hA, filterNonWs_cons_ws _ hA, ih]
          · have hA2 : pyIsSpace a = false := by rwa [Bool.not_eq_true] at hA
            rw [filterNonWs_cons_nws _ hA2, filterNonWs_cons_nws _ hA2, ih]

lemma filterNonWs_rstripLine (l : List Char) :
    filterNonWs (rstripLine l) = filterNonWs l := by
  conv_rhs => rw [← rstripLine_append_eq l]
  rw [filterNonWs_append]
  have hjunk : filterNonWs ((l.reverse.takeWhile pyIsSpace).reverse) = [] := by
    rw [filterNonWs, List.filter_reverse]
    rw [show List.filter (fun c => !(pyIsSpace c)) (l.reverse.takeWhile pyIsSpace) = [] from ?_]
    · rfl
    · rw [List.filter_eq_nil_iff]
      intro a ha
      simp [List.mem_takeWhile_imp ha]
  rw [hjunk, List.append_nil]

lemma filterNonWs_dropWhile (l : List Char) :
    filterNonWs (l.dropWhile pyIsSpace) = filterNonWs l := by
  conv_rhs => rw [← List.takeWhile_append_dropWhile pyIsSpace l]
  rw [filterNonWs_append]
  have hjunk : filterNonWs (l.takeWhile pyIsSpace) = [] := by
    rw [filterNonWs, List.filter_eq_nil_iff]
    intro a ha
    simp [List.mem_takeWhile_imp ha]
  rw [hjunk, List.nil_append]

lemma filterNonWs_pyStrip (l : List Char) : filterNonWs (pyStrip l) = filterNonWs l := by
  rw [pyStrip, filterNonWs_rstripLine, filterNonWs_dropWhile]

lemma filterNonWs_joinNL (parts : List (List Char)) :
    filterNonWs (joinNL parts) = (parts.map filterNonWs).flatten := by
  induction parts with
  | nil => rfl
  | cons p rest ih =>
    cases rest with
    | nil => simp [joinNL, joinWithSep]
    | cons q rest2 =>
      rw [joinNL_cons_cons, filterNonWs_append, filterNonWs_cons_ws _ (by decide), ih]
      simp [List.map_cons, List.flatten_cons]

lemma splitNL_filter_flatten (l : List Char) :
    ((splitNL l).map filterNonWs).flatten = filterNonWs l := by
  induction l with
  | nil => rfl
  | cons c rest ih =>
    by_cases hc : c = '\n'
    · subst hc
      have hstep : splitNL ('\n' :: rest) = [] :: splitNL rest := by
        simp [splitNL]
      rw [hstep]
      simp only [List.map_cons, List.flatten_cons]
      rw [ih]
      rw [show filterNonWs ('\n' :: rest) = filterNonWs rest from filterNonWs_cons_ws _ (by decide)]
      rfl
    · cases hsp : splitNL rest with
      | nil => exact absurd hsp (splitNL_ne_nil rest)
      | cons l0 ls =>
        have hstep : splitNL (c :: rest) = (c :: l0) :: ls := by
          simp only [splitNL]
          rw [if_neg hc, hsp]
        rw [hstep]
        simp only [List.map_cons, List.flatten_cons]
        have ih2 : filterNonWs l0 ++ (ls.map filterNonWs).flatten = filterNonWs rest := by
          rw [hsp] at ih
          simpa using ih
        by_cases hC : pyIsSpace c = true
        · rw [filterNonWs_cons_ws _ hC, filterNonWs_cons_ws _ hC, ih2]
        · have hC2 : pyIsSpace c = false := by rwa [Bool.not_eq_true] at hC
          rw [filterNonWs_cons_nws _ hC2, filterNonWs_cons_nws _ hC2]
          rw [List.cons_append, ih2]

lemma filterNonWs_normalize (s : List Char) :
    filterNonWs (normalizeTextForCache s) = filterNonWs s := by
  rw [normalizeTextForCache]
  split
  · rename_i hs
    rw [hs]
  · rw [filterNonWs_pyStrip, filterNonWs_joinNL, List.map_map]
    have hcong : (splitNL (collapseNewlines (collapseSpaces (nfcNormalize s)))).map
          (filterNonWs ∘ rstripLine)
        = (splitNL (collapseNewlines (collapseSpaces (nfcNormalize s)))).map filterNonWs := by
      apply List.map_congr_left
      intro p _hp
      exact filterNonWs_rstripLine p
    rw [hcong, splitNL_filter_flatten, filterNonWs_collapseNewlines, filterNonWs_collapseSpaces]
    rfl

/-- C4 counterexample: on `"ab  \na\n\n\n \n\n\nb"` the normalized output is
`"ab\na\n\n\n\nb"`: the trailing 2-space run is removed entirely (not
replaced by one space) and the two 3-newline runs, each first collapsed to
2, are then merged by the whitespace-only-line strip into a run of FOUR
newlines that survives in the output — so runs of 3+ newlines are not
always replaced by exactly 2. -/
theorem spec_C4_counterexample :
    normalizeTextForCache ("ab  \na\n\n\n \n\n\nb".toList) = ("ab\na\n\n\n\nb".toList)
    ∧ hasTripleNewline (normalizeTextForCache ("ab  \na\n\n\n \n\n\nb".toList)) = true := by
  decide

/-- C4 (amended): the space-collapsing step leaves no two adjacent spaces
and the newline-collapsing step leaves no run of three or more newlines;
the final output still never contains two adjacent spaces, and the
sequence of non-whitespace characters is preserved — but the later
per-line trailing-whitespace strip can merge shorter newline runs, so the
final output may contain runs of three or more newlines (and trailing
space runs are removed rather than collapsed to one space). -/
theorem spec_C4_amended (s : List Char) :
    hasDoubleSpace (collapseSpaces s) = false
    ∧ hasTripleNewline (collapseNewlines s) = false
    ∧ hasDoubleSpace (normalizeTextForCache s) = false
    ∧ filterNonWs (normalizeTextForCache s) = filterNonWs s :=
  ⟨hasDoubleSpace_collapseSpaces s, hasTripleNewline_collapseNewlines s,
    hasDoubleSpace_normalize s, filterNonWs_normalize s⟩

end AiNote
